import Mathlib

/-!
Verification development for three components of the sentry excerpt:

* `src/sentry/utils/linksign.py` — signed-link generation and validation,
* `src/sentry/integrations/gitlab/blame.py` — per-file blame fetching,
* `src/sentry/notifications/notifications/activity/note.py` — note formatting.

Python strings are modelled as lists of characters (`PyStr`); Python `None`
and exceptions are modelled with `Option` and `Except`.
-/

set_option autoImplicit false

/-- Python strings, modelled as lists of characters. -/
abbrev PyStr := List Char

namespace PyOps

/-- Python `s.split(sep)` for a single-character separator: splits at every
occurrence of `sep`; the result is always non-empty and its parts contain no
`sep`. -/
def pySplit (sep : Char) : PyStr → List PyStr
  | [] => [[]]
  | c :: cs =>
    if c = sep then [] :: pySplit sep cs
    else (pySplit sep cs).modifyHead (c :: ·)

/-- Python `sep.join(parts)` for a single-character separator. -/
def pyJoin (sep : Char) : List PyStr → PyStr
  | [] => []
  | [p] => p
  | p :: q :: ps => p ++ sep :: pyJoin sep (q :: ps)

/-- Python `s.count(sep)` for a single-character separator. -/
def strCount (sep : Char) (s : PyStr) : Nat := s.count sep

/-- Python `s.rsplit(sep, maxsplit)` for a single-character separator:
splits from the right at most `maxsplit` times. -/
def pyRsplit (sep : Char) (maxsplit : Nat) (s : PyStr) : List PyStr :=
  let parts := pySplit sep s
  if parts.length ≤ maxsplit + 1 then parts
  else
    pyJoin sep (parts.take (parts.length - maxsplit))
      :: parts.drop (parts.length - maxsplit)

/-- Split at the first occurrence of `sep`: the text before it and, when `sep`
occurs, the rest after it (Python `s.split(sep, 1)`). -/
def splitFirst (sep : Char) : PyStr → PyStr × Option PyStr
  | [] => ([], none)
  | c :: cs =>
    if c = sep then ([], some cs)
    else
      let r := splitFirst sep cs
      (c :: r.1, r.2)

end PyOps

namespace Radix

/-- Modelled from the spec: `sentry.utils.numbers.base36_encode` (named by
`linksign.py` but not included under `src/`); digit characters are `0-9`
then lowercase `a-z`. -/
def b36Char (d : Nat) : Char :=
  if d < 10 then Char.ofNat (48 + d) else Char.ofNat (87 + d)

/-- Modelled from the spec: digit values accepted by
`sentry.utils.numbers.base36_decode` (Python `int(s, 36)` accepts digits,
lowercase and uppercase letters). -/
def b36Val (c : Char) : Option Nat :=
  if 48 ≤ c.toNat ∧ c.toNat ≤ 57 then some (c.toNat - 48)
  else if 97 ≤ c.toNat ∧ c.toNat ≤ 122 then some (c.toNat - 87)
  else if 65 ≤ c.toNat ∧ c.toNat ≤ 90 then some (c.toNat - 55)
  else none

/-- Modelled from the spec: digit characters of django's base62 alphabet
(`0-9`, then `A-Z`, then `a-z`), used for the timestamp inside a signature. -/
def b62Char (d : Nat) : Char :=
  if d < 10 then Char.ofNat (48 + d)
  else if d < 36 then Char.ofNat (55 + d)
  else Char.ofNat (61 + d)

/-- Modelled from the spec: digit values of django's base62 alphabet. -/
def b62Val (c : Char) : Option Nat :=
  if 48 ≤ c.toNat ∧ c.toNat ≤ 57 then some (c.toNat - 48)
  else if 65 ≤ c.toNat ∧ c.toNat ≤ 90 then some (c.toNat - 55)
  else if 97 ≤ c.toNat ∧ c.toNat ≤ 122 then some (c.toNat - 61)
  else none

/-- Big-endian positional encoding of a natural number in base `B`, with an
accumulator of already-produced low digits.  The first argument is
recursion fuel: any amount exceeding the value to encode suffices, since
the value strictly shrinks with every produced digit. -/
def radixEncAux (B : Nat) (digChar : Nat → Char) :
    Nat → Nat → PyStr → PyStr
  | 0, _, acc => acc
  | fuel + 1, n, acc =>
    if n < B then digChar n :: acc
    else radixEncAux B digChar fuel (n / B) (digChar (n % B) :: acc)

/-- One decoding step: shift the accumulated value and add the digit. -/
def digStep (B : Nat) (digVal : Char → Option Nat) :
    Option Nat → Char → Option Nat :=
  fun acc c => acc.bind fun a => (digVal c).map fun d => a * B + d

/-- Positional decoding; the empty string is invalid (Python `int` raises). -/
def radixDecode (B : Nat) (digVal : Char → Option Nat) (s : PyStr) : Option Nat :=
  match s with
  | [] => none
  | _ => s.foldl (digStep B digVal) (some 0)

/-- `base36_encode` from `sentry.utils.numbers`, modelled from the spec:
base36-encode a user id. -/
def base36_encode (n : Nat) : PyStr := radixEncAux 36 b36Char (n + 1) n []

/-- `base36_decode` from `sentry.utils.numbers`, modelled from the spec:
decode a base36 string, failing (Python `ValueError`) on invalid input. -/
def base36_decode (s : PyStr) : Option Nat := radixDecode 36 b36Val s

/-- Django's base62 encoding of the signing timestamp, modelled from the
spec (the signer embeds a timestamp in the signature). -/
def base62_encode (n : Nat) : PyStr := radixEncAux 62 b62Char (n + 1) n []

/-- Django's base62 decoding of the signing timestamp, modelled from the
spec; fails on invalid digits. -/
def base62_decode (s : PyStr) : Option Nat := radixDecode 62 b62Val s

end Radix

namespace LinkSign

open PyOps Radix

/-- Configuration shared by link generation and validation.  `urlRoot` models
the `options.get("system.url-prefix")` value (modelled as explicit
configuration rather than ambient global state); `regionBase` models the
region base URL used by `region.to_url(path)` (modelled from the spec: the
region base URL is prepended to the path). -/
structure LinkConfig where
  urlRoot : PyStr
  regionBase : PyStr

/-- The `user` argument of `generate_signed_link`: either a user object
carrying an `is_authenticated` flag and an id, or a raw user id
(`hasattr(user, "is_authenticated")` distinguishes the two). -/
inductive SignUser where
  | authObj (id : Nat) (is_authenticated : Bool)
  | rawId (id : Nat)

/-- An inbound HTTP request as seen by `process_signature`: the request path
and the parsed GET parameters (key/value pairs, in order). -/
structure HttpRequest where
  path : PyStr
  GET : List (PyStr × PyStr)

/-- Django `QueryDict` lookup (`request.GET.get(key)`): the last value with
the given key, if any. -/
def queryGet (key : PyStr) (params : List (PyStr × PyStr)) : Option PyStr :=
  ((params.filter fun p => p.1 == key).getLast?).map fun p => p.2

/-- `django.core.signing.TimestampSigner.sign`, modelled from the spec: the
signed value is `value:base62(timestamp):mac(value:base62(timestamp))`,
where `mac` abstracts the salted keyed MAC. -/
def djSign (mac : PyStr → PyStr) (now : Nat) (value : PyStr) : PyStr :=
  let v := value ++ ':' :: base62_encode now
  v ++ ':' :: mac v

/-- `django.core.signing.TimestampSigner.unsign` with `max_age`, modelled
from the spec: split off the MAC at the last `:`, verify it, split off the
base62 timestamp at the now-last `:`, and require its age not to exceed
`maxAge`.  All failures (missing separator, bad MAC, undecodable or expired
timestamp) are modelled as `none`. -/
def djUnsign (mac : PyStr → PyStr) (now maxAge : Nat) (s : PyStr) :
    Option PyStr :=
  if strCount ':' s = 0 then none
  else
    match pyRsplit ':' 1 s with
    | [value, sig] =>
      if sig = mac value then
        if strCount ':' value = 0 then none
        else
          match pyRsplit ':' 1 value with
          | [item, tsStr] =>
            match base62_decode tsStr with
            | none => none
            | some ts =>
              if (maxAge : Int) < (now : Int) - (ts : Int) then none
              else some item
          | _ => none
      else none
    | _ => none

/-- UTF-8 encoding of one character, as its list of byte values. -/
def utf8Bytes (c : Char) : List Nat :=
  let n := c.toNat
  if n < 128 then [n]
  else if n < 2048 then [192 + n / 64, 128 + n % 64]
  else if n < 65536 then [224 + n / 4096, 128 + n / 64 % 64, 128 + n % 64]
  else [240 + n / 262144, 128 + n / 4096 % 64, 128 + n / 64 % 64,
    128 + n % 64]

/-- Uppercase hexadecimal digit character. -/
def hexChar (d : Nat) : Char :=
  if d < 10 then Char.ofNat (48 + d) else Char.ofNat (55 + d)

/-- Percent-encoding of one byte value. -/
def pctByte (b : Nat) : PyStr := ['%', hexChar (b / 16), hexChar (b % 16)]

/-- `urllib.parse.quote_plus` as used by `urlencode`, modelled from the
spec: letters, digits and `_.-~` are kept, a space becomes `+`, anything
else is percent-encoded per UTF-8 byte. -/
def quote_plus (s : PyStr) : PyStr :=
  s.flatMap fun c =>
    if c.isAlphanum || c == '_' || c == '.' || c == '-' || c == '~' then [c]
    else if c == ' ' then ['+']
    else (utf8Bytes c).flatMap pctByte

/-- The message of the `RuntimeError` raised by `generate_signed_link`. -/
def authErrorMessage : String := "Need an authenticated user to sign a link."

/-- The fixed key of the referrer query parameter appended by
`generate_signed_link` (the output of `urlencode` up to the value). -/
def referrerKey : String := "referrer="

/-- The body of `generate_signed_link` after user resolution: build the
signing payload `{url-prefix}|{path}|{base36(user_id)}`, sign it, keep the
last two `:`-fields of the signed value as the signature, and build
`{region-base}{path}?_={base36(user_id)}:{signature}` plus an optional
url-encoded referrer parameter. -/
def buildSignedLink (cfg : LinkConfig) (mac : PyStr → PyStr) (now : Nat)
    (user_id : Nat) (path : PyStr) (referrer : Option PyStr) : PyStr :=
  let item := cfg.urlRoot ++ '|' :: (path ++ '|' :: base36_encode user_id)
  let signature := pyJoin ':' ((pyRsplit ':' 2 (djSign mac now item)).drop 1)
  let signed_link := cfg.regionBase ++ path
      ++ '?' :: '_' :: '=' :: (base36_encode user_id ++ ':' :: signature)
  match referrer with
  | some r => signed_link ++ '&' :: (referrerKey.toList ++ quote_plus r)
  | none => signed_link

/-- `generate_signed_link` from `linksign.py`.  The django route resolution
`reverse(viewname, args, kwargs)` is an external collaborator and is
modelled from the spec by passing the resolved `path` directly; the
`RuntimeError` raised for an unauthenticated user object is modelled with
`Except.error`. -/
def generate_signed_link (cfg : LinkConfig) (mac : PyStr → PyStr) (now : Nat)
    (user : SignUser) (path : PyStr) (referrer : Option PyStr) :
    Except PyStr PyStr :=
  match user with
  | SignUser.authObj id flag =>
    if flag then Except.ok (buildSignedLink cfg mac now id path referrer)
    else Except.error authErrorMessage.toList
  | SignUser.rawId id =>
    Except.ok (buildSignedLink cfg mac now id path referrer)

/-- `find_signature`: `request.GET.get("_")`. -/
def find_signature (request : HttpRequest) : Option PyStr :=
  queryGet ['_'] request.GET

/-- The initial format check of `process_signature`: the parameter is
rejected when `not sig or sig.count(":") < 2`. -/
def signature_format_ok (sig : PyStr) : Bool :=
  !(sig.isEmpty || decide (strCount ':' sig < 2))

/-- `process_signature` from `linksign.py`.  The user-service lookup
(`user_service.get_user`) is modelled from the spec as resolving a valid id
to that user, so the function returns the resolved user id; `none` is
Python `None`.  In the unpacking arm that Python writes as
`_, signed_path, user_id = data.rsplit("|", 2)`, a MAC-valid payload with
fewer than two `|` characters would raise an uncaught `ValueError` in
Python; it is unreachable for payloads produced by the signer and modelled
as `none`. -/
def process_signature (cfg : LinkConfig) (mac : PyStr → PyStr) (now : Nat)
    (maxAge : Nat) (request : HttpRequest) : Option Nat :=
  match find_signature request with
  | none => none
  | some sig =>
    if signature_format_ok sig then
      match djUnsign mac now maxAge
          (cfg.urlRoot ++ '|' :: (request.path ++ '|' :: sig)) with
      | none => none
      | some data =>
        match pyRsplit '|' 2 data with
        | [_, signed_path, user_id] =>
          if signed_path ≠ request.path then none
          else base36_decode user_id
        | _ => none
    else none

/-- Modelled from the spec: the web framework parses the query string of a
URL into GET parameters by splitting on `&` and at the first `=` of each
piece (percent-decoding is omitted: the values produced by
`generate_signed_link` contain no percent-encoded characters). -/
def parseQuery (q : PyStr) : List (PyStr × PyStr) :=
  (pySplit '&' q).map fun p =>
    let r := splitFirst '=' p
    (r.1, (r.2).getD [])

/-- Modelled from the spec: the request the framework builds for a URL under
the region base URL: the path is everything after the base up to the first
`?`, and the GET parameters come from the query string. -/
def parseUrlRequest (base url : PyStr) : HttpRequest :=
  let rest := url.drop base.length
  let pr := splitFirst '?' rest
  { path := pr.1, GET := parseQuery ((pr.2).getD []) }

/-- Fixture configuration used by concrete witnesses. -/
def wCfg : LinkConfig := ⟨['u'], ['r', 'b']⟩

/-- Fixture route path used by concrete witnesses. -/
def wPath : PyStr := ['/', 'p']

/-- Fixture MAC used by concrete witnesses: it distinguishes the honest
signing payload for `wPath` (user 37, signed at time 5) from every other
string. -/
def wMac : PyStr → PyStr := fun s =>
  if s == (wCfg.urlRoot ++ '|' :: (wPath ++ '|' :: Radix.base36_encode 37))
      ++ ':' :: Radix.base62_encode 5 then ['m'] else ['n']

end LinkSign

namespace Note

/-- Python `str.replace(pat, rep)` over a string, for a non-empty pattern
`p :: ps`: scan left to right, replacing each non-overlapping occurrence. -/
def pyReplaceAux (p : Char) (ps : List Char) (rep : List Char) : PyStr → PyStr
  | [] => []
  | c :: cs =>
    if (p :: ps).isPrefixOf (c :: cs) then
      rep ++ pyReplaceAux p ps rep (cs.drop ps.length)
    else c :: pyReplaceAux p ps rep cs
termination_by l => l.length
decreasing_by
  · simp only [List.length_cons, List.length_drop]
    omega
  · simp only [List.length_cons]
    omega

/-- Python `text.replace(pat, rep)`; the source only calls it with the
one-character patterns `"{"` and `"}"` (Python's behaviour on an empty
pattern is irrelevant here and modelled as the identity). -/
def pyReplace (s pat rep : PyStr) : PyStr :=
  match pat with
  | [] => s
  | p :: ps => pyReplaceAux p ps rep s

/-- `NoteActivityNotification.get_description`: escape `{` and `}` in the
activity's `text` field by doubling and return `(description, None, {})`;
the empty context mapping is modelled as an empty association list. -/
def get_description (text : PyStr) :
    PyStr × Option PyStr × List (PyStr × PyStr) :=
  (pyReplace (pyReplace text ['{'] ['{', '{']) ['}'] ['}', '}'], none, [])

end Note

namespace Blame

/-- `MINIMUM_REQUESTS` from `blame.py`. -/
def MINIMUM_REQUESTS : Nat := 100

/-- `SourceLineInfo` (declared in `sentry.integrations.mixins.commit_context`,
outside this excerpt): repository, file path, line number and ref.  The
repository object is reduced to its name; its `project_id` config only
feeds the request path, which is part of the externalised HTTP call. -/
structure SourceLineInfo where
  repoName : String
  path : String
  lineno : Nat
  ref : String
  deriving DecidableEq

/-- `GitLabCommitResponse`: the commit dictionary of one blame hunk; each
field read with `.get` may be absent. -/
structure GitLabCommitResponse where
  id : Option String
  message : Option String
  committed_date : Option String
  author_name : Option String
  author_email : Option String
  deriving DecidableEq

/-- `GitLabFileBlameResponseItem`: one blame hunk; `item.get("commit")` may
be absent (an absent or empty — hence falsy — commit dict is `none`). -/
structure GitLabFileBlameResponseItem where
  commit : Option GitLabCommitResponse
  deriving DecidableEq

/-- `CommitInfo`, with the committed date as a parsed UTC timestamp. -/
structure CommitInfo where
  commitId : String
  commitMessage : Option String
  commitAuthorName : Option String
  commitAuthorEmail : Option String
  committedDate : Int
  deriving DecidableEq

/-- `FileBlameInfo`: the fields of the `SourceLineInfo`
(`**asdict(file)`) plus the resolved commit. -/
structure FileBlameInfo where
  repoName : String
  path : String
  lineno : Nat
  ref : String
  commit : CommitInfo
  deriving DecidableEq

/-- Python falsiness of an optional string (`None` and `""` are falsy). -/
def falsyStr : Option String → Bool
  | none => true
  | some s => s.isEmpty

/-- `_create_commit_from_blame`: discard the commit unless it is truthy,
has a truthy id and committed date, and the date parses; `parseDate` models
`isodate.parse_datetime` (its UTC normalisation included), with `none` for
the `except Exception` branch. -/
def _create_commit_from_blame (parseDate : String → Option Int)
    (commit : Option GitLabCommitResponse) : Option CommitInfo :=
  match commit with
  | none => none
  | some c =>
    if falsyStr c.id then none
    else if falsyStr c.committed_date then none
    else
      match c.id, c.committed_date with
      | some cid, some cdate =>
        match parseDate cdate with
        | none => none
        | some t => some ⟨cid, c.message, c.author_name, c.author_email, t⟩
      | _, _ => none

/-- Python `max(l, key=k)` as an `Option` (Python raises on an empty list;
the source guards that case): `max` scans left to right and replaces the
candidate only on a strictly greater key, so it returns the first element
with maximal key. -/
def pythonMaxBy {α : Type} (key : α → Int) : List α → Option α
  | [] => none
  | x :: xs => some (xs.foldl (fun b y => if key b < key y then y else b) x)

/-- `_get_commit_info_from_blame_response`: parse every hunk's commit, keep
the valid ones, and return the one with maximal committed date, or `None`
when no commit is valid. -/
def _get_commit_info_from_blame_response (parseDate : String → Option Int)
    (response : Option (List GitLabFileBlameResponseItem)) :
    Option CommitInfo :=
  match response with
  | none => none
  | some items =>
    let commits := items.map fun item =>
      _create_commit_from_blame parseDate item.commit
    let commits_with_required_info := commits.filterMap id
    pythonMaxBy (fun commit => commit.committedDate) commits_with_required_info

/-- The intermediate `commits_with_required_info` of
`_get_commit_info_from_blame_response`: the parsed commits of the hunks,
with the discarded ones removed. -/
def commits_with_required_info (parseDate : String → Option Int)
    (items : List GitLabFileBlameResponseItem) : List CommitInfo :=
  (items.map fun item => _create_commit_from_blame parseDate item.commit).filterMap id

/-- `GitLabRateLimitInfo` (declared in `gitlab/utils`, outside this
excerpt): the fields the guard in `fetch_file_blames` reads. -/
structure GitLabRateLimitInfo where
  remaining : Nat
  limit : Nat
  deriving DecidableEq

/-- The outcome of the externalised per-file HTTP interaction inside
`_fetch_file_blame`: the client raised an `ApiError` (with an optional
status code); or it returned a response that is not a
`SequenceApiResponse`; or it returned a sequence response carrying blame
hunks and the rate-limit info parsed from its headers (`none` when the
headers are absent, e.g. for a cached response). -/
inductive WireResult where
  | apiError (code : Option Nat)
  | notSequence
  | seqResponse (items : List GitLabFileBlameResponseItem)
      (rateLimit : Option GitLabRateLimitInfo)

/-- An `ApiError` propagated out of `_fetch_file_blame`. -/
structure ApiErr where
  code : Option Nat
  deriving DecidableEq

/-- `_fetch_file_blame`: request building, cache lookup and the HTTP call
are the externalised `wire` outcome; a non-sequence response raises
`ApiError("Response is not in expected format")` (no status code),
otherwise the commit is parsed from the hunks and returned together with
the rate-limit info. -/
def _fetch_file_blame (parseDate : String → Option Int) (wire : WireResult) :
    Except ApiErr (Option CommitInfo × Option GitLabRateLimitInfo) :=
  match wire with
  | WireResult.apiError c => Except.error ⟨c⟩
  | WireResult.notSequence => Except.error ⟨none⟩
  | WireResult.seqResponse items rl =>
    Except.ok (_get_commit_info_from_blame_response parseDate (some items), rl)

/-- `_create_file_blame_info`: `FileBlameInfo(**asdict(file), commit=commit)`. -/
def _create_file_blame_info (commit : CommitInfo) (file : SourceLineInfo) :
    FileBlameInfo :=
  ⟨file.repoName, file.path, file.lineno, file.ref, commit⟩

/-- The first-iteration guard condition
`rate_limit_info and rate_limit_info.remaining < (MINIMUM_REQUESTS - len(files))`;
Python subtraction can go negative, hence `Int`. -/
def rateLimitLow (rl : Option GitLabRateLimitInfo) (numFiles : Nat) : Bool :=
  match rl with
  | none => false
  | some info =>
    decide ((info.remaining : Int) < (MINIMUM_REQUESTS : Int) - (numFiles : Int))

/-- The message of the `ApiRateLimitedError` raised by the guard. -/
def rateLimitMessage : String := "Approaching GitLab API rate limit"

/-- The loop of `fetch_file_blames` over the remaining files, carrying the
loop index `i` and the accumulated `blames`; `total` is `len(files)`.  A
per-file `ApiError` is handled (`_handle_file_blame_error` logs and meters)
and the loop continues; in the `else` branch of a successful iteration,
the first-iteration rate-limit guard may abort the whole batch. -/
def fetchLoop (parseDate : String → Option Int) (total : Nat) :
    List (SourceLineInfo × WireResult) → Nat → List FileBlameInfo →
    Except String (List FileBlameInfo)
  | [], _, blames => Except.ok blames
  | (file, wire) :: rest, i, blames =>
    match _fetch_file_blame parseDate wire with
    | Except.error _ => fetchLoop parseDate total rest (i + 1) blames
    | Except.ok (commit, rate_limit_info) =>
      let blames2 :=
        match commit with
        | some c => blames ++ [_create_file_blame_info c file]
        | none => blames
      if i = 0 ∧ 1 < total ∧ rateLimitLow rate_limit_info total = true then
        Except.error rateLimitMessage
      else fetchLoop parseDate total rest (i + 1) blames2

/-- `fetch_file_blames`: each input file is paired with the outcome of its
externalised HTTP interaction; the result is the collected blames, or the
`ApiRateLimitedError` raised by the first-iteration guard. -/
def fetch_file_blames (parseDate : String → Option Int)
    (files : List (SourceLineInfo × WireResult)) :
    Except String (List FileBlameInfo) :=
  fetchLoop parseDate files.length files 0 []

/-- Fixture file reference used by concrete witnesses. -/
def wFile : SourceLineInfo := ⟨String.mk ['r'], String.mk ['p'], 1, String.mk ['m']⟩

/-- Fixture date parser used by concrete witnesses: the parsed timestamp is
the length of the date string. -/
def wParseDate : String → Option Int := fun s => some (s.length : Int)

/-- Fixture date string of a given length. -/
def dateStr (n : Nat) : String := String.mk (List.replicate n 'x')

/-- Fixture blame hunk with a one-character commit id and a date string of
the given length. -/
def wItem (idc : Char) (dateLen : Nat) : GitLabFileBlameResponseItem :=
  ⟨some ⟨some (String.mk [idc]), none, some (dateStr dateLen), none, none⟩⟩

end Blame

namespace PyOps

theorem pySplit_ne_nil (sep : Char) (s : PyStr) : pySplit sep s ≠ [] := by
  induction s with
  | nil => simp [pySplit]
  | cons c cs ih =>
    simp only [pySplit]
    split
    · simp
    · cases h : pySplit sep cs with
      | nil => exact absurd h ih
      | cons p ps => simp

theorem pySplit_no_sep (sep : Char) (s : PyStr) (h : sep ∉ s) :
    pySplit sep s = [s] := by
  induction s with
  | nil => rfl
  | cons c cs ih =>
    have hc : ¬ c = sep := by
      intro hc; exact h (by simp [hc])
    have hcs : sep ∉ cs := fun hm => h (List.mem_cons_of_mem _ hm)
    simp [pySplit, if_neg hc, ih hcs]

theorem pySplit_append_sep (sep : Char) (a b : PyStr) :
    pySplit sep (a ++ sep :: b) = pySplit sep a ++ pySplit sep b := by
  induction a with
  | nil => simp [pySplit]
  | cons c cs ih =>
    by_cases hc : c = sep
    · subst hc
      simp [pySplit, ih]
    · simp only [List.cons_append, pySplit, if_neg hc, List.append_eq]
      rw [ih]
      obtain ⟨p, ps, hps⟩ := List.exists_cons_of_ne_nil (pySplit_ne_nil sep cs)
      rw [hps]
      simp

theorem pyJoin_pySplit (sep : Char) (s : PyStr) :
    pyJoin sep (pySplit sep s) = s := by
  induction s with
  | nil => rfl
  | cons c cs ih =>
    obtain ⟨p, ps, hps⟩ := List.exists_cons_of_ne_nil (pySplit_ne_nil sep cs)
    by_cases hc : c = sep
    · subst hc
      simp only [pySplit, if_pos rfl]
      rw [hps] at ih ⊢
      simpa [pyJoin] using ih
    · simp only [pySplit, if_neg hc]
      rw [hps] at ih ⊢
      cases ps with
      | nil => simpa [pyJoin] using ih
      | cons q qs => simpa [pyJoin] using ih

theorem strCount_succ (sep : Char) (s : PyStr) :
    strCount sep s + 1 = (pySplit sep s).length := by
  induction s with
  | nil => simp [strCount, pySplit]
  | cons c cs ih =>
    by_cases hc : c = sep
    · subst hc
      have h1 : pySplit c (c :: cs) = [] :: pySplit c cs := by
        simp [pySplit]
      have h2 : strCount c (c :: cs) = strCount c cs + 1 := by
        simp [strCount]
      rw [h1, h2, List.length_cons]
      omega
    · have h1 : pySplit sep (c :: cs) = (pySplit sep cs).modifyHead (c :: ·) := by
        simp [pySplit, if_neg hc]
      have h2 : strCount sep (c :: cs) = strCount sep cs := by
        simp [strCount, List.count_cons, hc]
      have h3 : ((pySplit sep cs).modifyHead (c :: ·)).length
          = (pySplit sep cs).length := by
        cases h : pySplit sep cs <;> simp
      rw [h1, h2, h3]
      exact ih

theorem strCount_no_sep (sep : Char) (s : PyStr) (h : sep ∉ s) :
    strCount sep s = 0 := by
  simp only [strCount, List.count_eq_zero]
  exact h

/-- `rsplit` with `maxsplit = 1` pulls off the text after the last separator,
whatever the left part contains. -/
theorem pyRsplit_one (sep : Char) (a b : PyStr) (hb : sep ∉ b) :
    pyRsplit sep 1 (a ++ sep :: b) = [a, b] := by
  have hparts : pySplit sep (a ++ sep :: b) = pySplit sep a ++ [b] := by
    rw [pySplit_append_sep, pySplit_no_sep sep b hb]
  obtain ⟨p, ps, hps⟩ := List.exists_cons_of_ne_nil (pySplit_ne_nil sep a)
  unfold pyRsplit
  rw [hparts]
  cases ps with
  | nil =>
    have ha : pyJoin sep (pySplit sep a) = a := pyJoin_pySplit sep a
    rw [hps] at ha
    simp only [pyJoin] at ha
    simp [hps, ha]
  | cons q qs =>
    have hlen : (pySplit sep a ++ [b]).length = (pySplit sep a).length + 1 := by
      simp
    have hgt : ¬ (pySplit sep a ++ [b]).length ≤ 2 := by
      rw [hlen, hps]
      simp only [List.length_cons]
      omega
    rw [if_neg hgt]
    have hk : (pySplit sep a ++ [b]).length - 1 = (pySplit sep a).length := by
      omega
    rw [hk, List.take_left, List.drop_left, pyJoin_pySplit]

/-- `rsplit` with `maxsplit = 2` pulls off the last two fields, whatever the
left part contains. -/
theorem pyRsplit_two (sep : Char) (a b c : PyStr) (hb : sep ∉ b) (hc : sep ∉ c) :
    pyRsplit sep 2 (a ++ sep :: (b ++ sep :: c)) = [a, b, c] := by
  have hparts : pySplit sep (a ++ sep :: (b ++ sep :: c))
      = pySplit sep a ++ [b, c] := by
    rw [pySplit_append_sep, pySplit_append_sep,
      pySplit_no_sep sep b hb, pySplit_no_sep sep c hc]
    rfl
  obtain ⟨p, ps, hps⟩ := List.exists_cons_of_ne_nil (pySplit_ne_nil sep a)
  unfold pyRsplit
  rw [hparts]
  cases ps with
  | nil =>
    have ha : pyJoin sep (pySplit sep a) = a := pyJoin_pySplit sep a
    rw [hps] at ha
    simp only [pyJoin] at ha
    simp [hps, ha]
  | cons q qs =>
    have hlen : (pySplit sep a ++ [b, c]).length = (pySplit sep a).length + 2 := by
      simp
    have hgt : ¬ (pySplit sep a ++ [b, c]).length ≤ 3 := by
      rw [hlen, hps]
      simp only [List.length_cons]
      omega
    rw [if_neg hgt]
    have hk : (pySplit sep a ++ [b, c]).length - 2 = (pySplit sep a).length := by
      omega
    rw [hk, List.take_left, List.drop_left, pyJoin_pySplit]

theorem splitFirst_no_sep (sep : Char) (a : PyStr) (h : sep ∉ a) :
    splitFirst sep a = (a, none) := by
  induction a with
  | nil => rfl
  | cons c cs ih =>
    have hc : ¬ c = sep := by
      intro hc; exact h (by simp [hc])
    have hcs : sep ∉ cs := fun hm => h (List.mem_cons_of_mem _ hm)
    simp [splitFirst, if_neg hc, ih hcs]

theorem splitFirst_append (sep : Char) (a b : PyStr) (h : sep ∉ a) :
    splitFirst sep (a ++ sep :: b) = (a, some b) := by
  induction a with
  | nil => simp [splitFirst]
  | cons c cs ih =>
    have hc : ¬ c = sep := by
      intro hc; exact h (by simp [hc])
    have hcs : sep ∉ cs := fun hm => h (List.mem_cons_of_mem _ hm)
    simp [splitFirst, if_neg hc, ih hcs]

end PyOps

namespace Radix

theorem radixEncAux_append (B : Nat) (hB : 2 ≤ B) (dc : Nat → Char) :
    ∀ (fuel n : Nat) (acc : PyStr), n < fuel →
      radixEncAux B dc fuel n acc = radixEncAux B dc fuel n [] ++ acc := by
  intro fuel
  induction fuel with
  | zero => intro n acc h; omega
  | succ fuel ih =>
    intro n acc h
    by_cases hn : n < B
    · simp [radixEncAux, hn]
    · have hd : n / B < fuel := by
        have h1 : n / B < n := Nat.div_lt_self (by omega) (by omega)
        omega
      simp only [radixEncAux, if_neg hn]
      rw [ih (n / B) (dc (n % B) :: acc) hd, ih (n / B) ([dc (n % B)]) hd]
      simp

theorem radixEncAux_ne_nil (B : Nat) (hB : 2 ≤ B) (dc : Nat → Char) :
    ∀ (fuel n : Nat) (acc : PyStr), n < fuel →
      radixEncAux B dc fuel n acc ≠ [] := by
  intro fuel
  induction fuel with
  | zero => intro n acc h; omega
  | succ fuel ih =>
    intro n acc h
    by_cases hn : n < B
    · simp [radixEncAux, hn]
    · have hd : n / B < fuel := by
        have h1 : n / B < n := Nat.div_lt_self (by omega) (by omega)
        omega
      simp only [radixEncAux, if_neg hn]
      exact ih (n / B) _ hd

theorem radixEncAux_mem (B : Nat) (hB : 2 ≤ B) (dc : Nat → Char) :
    ∀ (fuel n : Nat) (acc : PyStr) (c : Char), n < fuel →
      c ∈ radixEncAux B dc fuel n acc →
      (∃ d, d < B ∧ c = dc d) ∨ c ∈ acc := by
  intro fuel
  induction fuel with
  | zero => intro n acc c h; omega
  | succ fuel ih =>
    intro n acc c h hc
    by_cases hn : n < B
    · rw [radixEncAux, if_pos hn] at hc
      rcases List.mem_cons.mp hc with h1 | h2
      · exact Or.inl ⟨n, hn, h1⟩
      · exact Or.inr h2
    · have hd : n / B < fuel := by
        have h1 : n / B < n := Nat.div_lt_self (by omega) (by omega)
        omega
      rw [radixEncAux, if_neg hn] at hc
      rcases ih (n / B) _ c hd hc with h1 | h2
      · exact Or.inl h1
      · rcases List.mem_cons.mp h2 with h3 | h4
        · exact Or.inl ⟨n % B, Nat.mod_lt _ (by omega), h3⟩
        · exact Or.inr h4

theorem radix_fold (B : Nat) (hB : 2 ≤ B) (dc : Nat → Char)
    (dv : Char → Option Nat) (hdig : ∀ d, d < B → dv (dc d) = some d) :
    ∀ (fuel n : Nat), n < fuel → ∀ a,
      List.foldl (digStep B dv) (some a) (radixEncAux B dc fuel n [])
        = some (a * B ^ (radixEncAux B dc fuel n []).length + n) := by
  intro fuel
  induction fuel with
  | zero => intro n h; omega
  | succ fuel ih =>
    intro n h a
    by_cases hn : n < B
    · rw [radixEncAux, if_pos hn]
      simp [digStep, hdig n hn, pow_succ]
    · have hd : n / B < fuel := by
        have h1 : n / B < n := Nat.div_lt_self (by omega) (by omega)
        omega
      have henc : radixEncAux B dc (fuel + 1) n []
          = radixEncAux B dc fuel (n / B) [] ++ [dc (n % B)] := by
        rw [radixEncAux, if_neg hn,
          radixEncAux_append B hB dc fuel (n / B) ([dc (n % B)]) hd]
      rw [henc, List.foldl_append, ih (n / B) hd a]
      have hmod : n % B < B := Nat.mod_lt _ (by omega)
      have hstep : List.foldl (digStep B dv)
          (some (a * B ^ (radixEncAux B dc fuel (n / B) []).length + n / B))
          [dc (n % B)]
          = some ((a * B ^ (radixEncAux B dc fuel (n / B) []).length + n / B)
              * B + n % B) := by
        simp [digStep, hdig _ hmod]
      rw [hstep]
      have hlen : (radixEncAux B dc fuel (n / B) [] ++ [dc (n % B)]).length
          = (radixEncAux B dc fuel (n / B) []).length + 1 := by simp
      rw [hlen]
      congr 1
      have hdm : n / B * B + n % B = n := by
        rw [Nat.mul_comm]
        exact Nat.div_add_mod n B
      calc (a * B ^ (radixEncAux B dc fuel (n / B) []).length + n / B) * B
            + n % B
          = a * (B ^ (radixEncAux B dc fuel (n / B) []).length * B)
            + (n / B * B + n % B) := by ring
        _ = a * B ^ ((radixEncAux B dc fuel (n / B) []).length + 1) + n := by
            rw [pow_succ, hdm]

theorem radixDecode_encode (B : Nat) (hB : 2 ≤ B) (dc : Nat → Char)
    (dv : Char → Option Nat) (hdig : ∀ d, d < B → dv (dc d) = some d)
    (fuel n : Nat) (h : n < fuel) :
    radixDecode B dv (radixEncAux B dc fuel n []) = some n := by
  cases henc : radixEncAux B dc fuel n [] with
  | nil => exact absurd henc (radixEncAux_ne_nil B hB dc fuel n [] h)
  | cons c cs =>
    have hfold : radixDecode B dv (c :: cs)
        = List.foldl (digStep B dv) (some 0) (c :: cs) := rfl
    rw [hfold, ← henc, radix_fold B hB dc dv hdig fuel n h 0]
    simp

theorem base36_decode_encode (n : Nat) :
    base36_decode (base36_encode n) = some n :=
  radixDecode_encode 36 (by omega) b36Char b36Val
    (by decide : ∀ d, d < 36 → b36Val (b36Char d) = some d) (n + 1) n
    (by omega)

theorem base62_decode_encode (n : Nat) :
    base62_decode (base62_encode n) = some n :=
  radixDecode_encode 62 (by omega) b62Char b62Val
    (by decide : ∀ d, d < 62 → b62Val (b62Char d) = some d) (n + 1) n
    (by omega)

theorem base36_encode_alnum (n : Nat) :
    ∀ c ∈ base36_encode n, c.isAlphanum = true := by
  intro c hc
  rcases radixEncAux_mem 36 (by omega) b36Char (n + 1) n [] c (by omega) hc
    with ⟨d, hd, rfl⟩ | h
  · exact (by decide : ∀ d, d < 36 → (b36Char d).isAlphanum = true) d hd
  · simp at h

theorem base62_encode_alnum (n : Nat) :
    ∀ c ∈ base62_encode n, c.isAlphanum = true := by
  intro c hc
  rcases radixEncAux_mem 62 (by omega) b62Char (n + 1) n [] c (by omega) hc
    with ⟨d, hd, rfl⟩ | h
  · exact (by decide : ∀ d, d < 62 → (b62Char d).isAlphanum = true) d hd
  · simp at h

/-- An all-alphanumeric string cannot contain a non-alphanumeric character. -/
theorem not_mem_of_alnum (s : PyStr) (h : ∀ c ∈ s, c.isAlphanum = true)
    (x : Char) (hx : x.isAlphanum = false) : x ∉ s := by
  intro hm
  have := h x hm
  rw [hx] at this
  exact Bool.false_ne_true this

end Radix

namespace Note

/-- Replacement of a single-character pattern rewrites each character
independently. -/
theorem pyReplaceAux_single (p : Char) (rep : List Char) (l : PyStr) :
    pyReplaceAux p [] rep l
      = l.flatMap fun c => if c = p then rep else [c] := by
  induction l with
  | nil => simp [pyReplaceAux]
  | cons c cs ih =>
    by_cases hc : c = p
    · subst hc
      have hpre : ([c]).isPrefixOf (c :: cs) = true := by
        simp [List.isPrefixOf]
      simp [pyReplaceAux, hpre, ih]
    · have hpre : ([p]).isPrefixOf (c :: cs) = false := by
        simp [List.isPrefixOf]
        exact fun h => hc h.symm
      simp [pyReplaceAux, hpre, hc, ih]

end Note

/-- Claim C6: for every note text, `get_description` returns the triple
`(description, None, {})` where the description equals the input with every
literal `{` doubled, every literal `}` doubled, and no other character
altered. -/
theorem C6_note_get_description (text : PyStr) :
    Note.get_description text
      = (text.flatMap fun c =>
          if c = '{' then ['{', '{']
          else if c = '}' then ['}', '}']
          else [c], none, []) := by
  simp only [Note.get_description, Note.pyReplace]
  rw [Note.pyReplaceAux_single, Note.pyReplaceAux_single, List.flatMap_assoc]
  have hfun : ∀ c : Char,
      (if c = '{' then ['{', '{'] else [c]).flatMap
          (fun d => if d = '}' then ['}', '}'] else [d])
        = (if c = '{' then ['{', '{']
           else if c = '}' then ['}', '}']
           else [c]) := by
    intro c
    by_cases h1 : c = '{'
    · subst h1
      decide
    · by_cases h2 : c = '}'
      · subst h2
        decide
      · simp [h1, h2]
  simp only [hfun]

/-- Claim C7: a user object whose authenticated flag is false makes
`generate_signed_link` raise `RuntimeError` immediately, returning no
link. -/
theorem C7_unauthenticated_user_raises (cfg : LinkSign.LinkConfig)
    (mac : PyStr → PyStr) (now : Nat) (id : Nat) (path : PyStr)
    (referrer : Option PyStr) :
    LinkSign.generate_signed_link cfg mac now
        (LinkSign.SignUser.authObj id false) path referrer
      = Except.error LinkSign.authErrorMessage.toList := rfl

/-- Claim C9 is false as stated: the parameter `a:b` has two `:`-delimited
segments yet is rejected by the initial format check of
`process_signature` (the check requires `sig.count(":") >= 2`, i.e. at
least three segments). -/
theorem C9_counterexample :
    (PyOps.pySplit ':' ['a', ':', 'b']).length = 2
      ∧ LinkSign.signature_format_ok ['a', ':', 'b'] = false := by
  decide

/-- Claim C9 (amended): the initial format check of `process_signature`
accepts exactly the `_` parameters with at least three `:`-delimited
segments (equivalently, at least two `:` characters); every request whose
`_` parameter fails the check resolves to no user, without attempting
signature verification. -/
theorem C9_amended_format_check (s : PyStr) :
    (LinkSign.signature_format_ok s = true ↔ 3 ≤ (PyOps.pySplit ':' s).length)
    ∧ ∀ (cfg : LinkSign.LinkConfig) (mac : PyStr → PyStr) (now maxAge : Nat)
        (req : LinkSign.HttpRequest),
        LinkSign.find_signature req = some s →
        LinkSign.signature_format_ok s = false →
        LinkSign.process_signature cfg mac now maxAge req = none := by
  constructor
  · have hc := PyOps.strCount_succ ':' s
    cases s with
    | nil => simp [LinkSign.signature_format_ok, PyOps.pySplit]
    | cons c cs =>
      simp only [LinkSign.signature_format_ok, List.isEmpty_cons,
        Bool.false_or, Bool.not_eq_true', decide_eq_false_iff_not, Nat.not_lt]
      omega
  · intro cfg mac now maxAge req hfind hbad
    simp [LinkSign.process_signature, hfind, hbad]

/-- Witness for the amended claim C9, at the two-segment parameter `a:b`. -/
theorem C9_amended_format_check_witness :
    LinkSign.process_signature ⟨[], []⟩ (fun _ => []) 0 0
        ⟨['/'], [(['_'], ['a', ':', 'b'])]⟩ = none :=
  (C9_amended_format_check ['a', ':', 'b']).2 ⟨[], []⟩ (fun _ => []) 0 0
    ⟨['/'], [(['_'], ['a', ':', 'b'])]⟩ (by decide) (by decide)

namespace Blame

/-- Unfolding of one loop iteration of `fetch_file_blames`. -/
theorem fetchLoop_cons (parseDate : String → Option Int) (total : Nat)
    (file : SourceLineInfo) (wire : WireResult)
    (rest : List (SourceLineInfo × WireResult)) (i : Nat)
    (acc : List FileBlameInfo) :
    fetchLoop parseDate total ((file, wire) :: rest) i acc
      = match _fetch_file_blame parseDate wire with
        | Except.error _ => fetchLoop parseDate total rest (i + 1) acc
        | Except.ok (commit, rate_limit_info) =>
          let blames2 :=
            match commit with
            | some c => acc ++ [_create_file_blame_info c file]
            | none => acc
          if i = 0 ∧ 1 < total ∧ rateLimitLow rate_limit_info total = true then
            Except.error rateLimitMessage
          else fetchLoop parseDate total rest (i + 1) blames2 := rfl

/-- The loop of `fetch_file_blames` grows the accumulator by at most one
entry per remaining file. -/
theorem fetchLoop_length (parseDate : String → Option Int) (total : Nat) :
    ∀ (rest : List (SourceLineInfo × WireResult)) (i : Nat)
      (acc l : List FileBlameInfo),
      fetchLoop parseDate total rest i acc = Except.ok l →
      l.length ≤ acc.length + rest.length := by
  intro rest
  induction rest with
  | nil =>
    intro i acc l h
    simp only [fetchLoop] at h
    cases h
    simp
  | cons fw rest ih =>
    intro i acc l h
    obtain ⟨file, wire⟩ := fw
    rw [fetchLoop_cons] at h
    cases hf : _fetch_file_blame parseDate wire with
    | error e =>
      rw [hf] at h
      dsimp only at h
      have hrec := ih (i + 1) acc l h
      simp only [List.length_cons]
      omega
    | ok pr =>
      obtain ⟨commit, rli⟩ := pr
      rw [hf] at h
      dsimp only at h
      by_cases hg : i = 0 ∧ 1 < total ∧ rateLimitLow rli total = true
      · rw [if_pos hg] at h
        cases h
      · rw [if_neg hg] at h
        cases commit with
        | some c =>
          dsimp only at h
          have hrec := ih (i + 1) (acc ++ [_create_file_blame_info c file]) l h
          simp only [List.length_append, List.length_cons,
            List.length_nil] at hrec ⊢
          omega
        | none =>
          dsimp only at h
          have hrec := ih (i + 1) acc l h
          simp only [List.length_cons]
          omega

/-- From any strictly positive loop index on, the loop of
`fetch_file_blames` cannot abort: the rate-limit guard is tied to index
zero and per-file errors are swallowed. -/
theorem fetchLoop_ok_of_pos (parseDate : String → Option Int) (total : Nat) :
    ∀ (rest : List (SourceLineInfo × WireResult)) (i : Nat)
      (acc : List FileBlameInfo), i ≠ 0 →
      ∃ l, fetchLoop parseDate total rest i acc = Except.ok l := by
  intro rest
  induction rest with
  | nil =>
    intro i acc hi
    exact ⟨acc, rfl⟩
  | cons fw rest ih =>
    intro i acc hi
    obtain ⟨file, wire⟩ := fw
    rw [fetchLoop_cons]
    cases hf : _fetch_file_blame parseDate wire with
    | error e =>
      exact ih (i + 1) acc (by omega)
    | ok pr =>
      obtain ⟨commit, rli⟩ := pr
      dsimp only
      have hg : ¬(i = 0 ∧ 1 < total ∧ rateLimitLow rli total = true) :=
        fun hg => hi hg.1
      rw [if_neg hg]
      exact ih (i + 1) _ (by omega)

end Blame

/-- Claim C2: when the first file's call succeeds, the batch has more than
one file, and the rate-limit headroom observed on that first call is below
`MINIMUM_REQUESTS` minus the file count, `fetch_file_blames` raises the
rate-limit error — whatever the outcomes of all the remaining files. -/
theorem C2_rate_limit_abort (parseDate : String → Option Int)
    (f0 : Blame.SourceLineInfo)
    (items : List Blame.GitLabFileBlameResponseItem)
    (rl : Blame.GitLabRateLimitInfo)
    (rest : List (Blame.SourceLineInfo × Blame.WireResult))
    (hrest : rest ≠ [])
    (hlow : (rl.remaining : Int) < (Blame.MINIMUM_REQUESTS : Int)
      - (((f0, Blame.WireResult.seqResponse items (some rl)) :: rest).length
          : Int)) :
    Blame.fetch_file_blames parseDate
        ((f0, Blame.WireResult.seqResponse items (some rl)) :: rest)
      = Except.error Blame.rateLimitMessage := by
  unfold Blame.fetch_file_blames
  rw [Blame.fetchLoop_cons]
  have hf : Blame._fetch_file_blame parseDate
      (Blame.WireResult.seqResponse items (some rl))
      = Except.ok
        (Blame._get_commit_info_from_blame_response parseDate (some items),
          some rl) := rfl
  rw [hf]
  dsimp only
  have h1 : 1 < ((f0, Blame.WireResult.seqResponse items (some rl))
      :: rest).length := by
    have := List.length_pos.mpr hrest
    simp only [List.length_cons]
    omega
  have h2 : Blame.rateLimitLow (some rl)
      ((f0, Blame.WireResult.seqResponse items (some rl)) :: rest).length
      = true := by
    simp only [Blame.rateLimitLow, decide_eq_true_iff]
    exact hlow
  rw [if_pos ⟨rfl, h1, h2⟩]

/-- Witness for claim C2: two files, first succeeding with 0 remaining
requests. -/
theorem C2_rate_limit_abort_witness :
    Blame.fetch_file_blames (fun _ => none)
        [(Blame.wFile, Blame.WireResult.seqResponse [] (some ⟨0, 100⟩)),
          (Blame.wFile, Blame.WireResult.apiError none)]
      = Except.error Blame.rateLimitMessage :=
  C2_rate_limit_abort (fun _ => none) Blame.wFile [] ⟨0, 100⟩
    [(Blame.wFile, Blame.WireResult.apiError none)] (by simp) (by decide)

/-- Claim C4: `fetch_file_blames` on the empty list returns the empty list
(no rate-limit abort), and every returned list is at most as long as the
input list. -/
theorem C4_result_length (parseDate : String → Option Int) :
    Blame.fetch_file_blames parseDate [] = Except.ok []
    ∧ ∀ (files : List (Blame.SourceLineInfo × Blame.WireResult))
        (l : List Blame.FileBlameInfo),
        Blame.fetch_file_blames parseDate files = Except.ok l →
        l.length ≤ files.length := by
  constructor
  · rfl
  · intro files l h
    have hrec := Blame.fetchLoop_length parseDate files.length files 0 [] l h
    simpa using hrec

/-- Witness for claim C4: a one-file batch whose response has no valid
commit yields a result of length 0 ≤ 1. -/
theorem C4_result_length_witness :
    ([] : List Blame.FileBlameInfo).length
      ≤ [(Blame.wFile, Blame.WireResult.seqResponse [] none)].length :=
  (C4_result_length (fun _ => none)).2
    [(Blame.wFile, Blame.WireResult.seqResponse [] none)] [] rfl

/-- Claim C10: when the first file's blame request raises an `ApiError`
(handled per-file), the first-iteration rate-limit guard is skipped with
it, and `fetch_file_blames` never raises the rate-limit abort — whatever
the remaining files report. -/
theorem C10_first_file_error_no_abort (parseDate : String → Option Int)
    (f0 : Blame.SourceLineInfo) (w0 : Blame.WireResult) (e : Blame.ApiErr)
    (he : Blame._fetch_file_blame parseDate w0 = Except.error e)
    (rest : List (Blame.SourceLineInfo × Blame.WireResult)) :
    ∃ l, Blame.fetch_file_blames parseDate ((f0, w0) :: rest)
      = Except.ok l := by
  unfold Blame.fetch_file_blames
  rw [Blame.fetchLoop_cons, he]
  dsimp only
  exact Blame.fetchLoop_ok_of_pos parseDate _ rest 1 [] (by omega)

/-- Witness for claim C10: the first file 429s while the second file
observes 0 remaining requests; the batch still completes. -/
theorem C10_first_file_error_no_abort_witness :
    ∃ l, Blame.fetch_file_blames (fun _ => none)
        [(Blame.wFile, Blame.WireResult.apiError (some 429)),
          (Blame.wFile, Blame.WireResult.seqResponse [] (some ⟨0, 100⟩))]
      = Except.ok l :=
  C10_first_file_error_no_abort (fun _ => none) Blame.wFile
    (Blame.WireResult.apiError (some 429)) ⟨some 429⟩ rfl
    [(Blame.wFile, Blame.WireResult.seqResponse [] (some ⟨0, 100⟩))]

/-- Claim C5: a file whose response has no hunks, or only hunks without a
valid commit id or a parseable committed date, yields no commit and no
error from `_fetch_file_blame`, and its loop iteration leaves the
accumulated blames unchanged (given the rate-limit guard does not fire on
that iteration). -/
theorem C5_invalid_hunks_contribute_nothing (parseDate : String → Option Int)
    (items : List Blame.GitLabFileBlameResponseItem)
    (hAll : ∀ it ∈ items,
      Blame._create_commit_from_blame parseDate it.commit = none)
    (f : Blame.SourceLineInfo) (rl : Option Blame.GitLabRateLimitInfo) :
    Blame._fetch_file_blame parseDate (Blame.WireResult.seqResponse items rl)
      = Except.ok (none, rl)
    ∧ ∀ (total : Nat) (rest : List (Blame.SourceLineInfo × Blame.WireResult))
        (i : Nat) (acc : List Blame.FileBlameInfo),
        ¬(i = 0 ∧ 1 < total ∧ Blame.rateLimitLow rl total = true) →
        Blame.fetchLoop parseDate total
            ((f, Blame.WireResult.seqResponse items rl) :: rest) i acc
          = Blame.fetchLoop parseDate total rest (i + 1) acc := by
  have hnil : (items.map fun item =>
      Blame._create_commit_from_blame parseDate item.commit).filterMap id
      = [] := by
    rw [List.filterMap_map]
    rw [List.filterMap_eq_nil_iff]
    intro a ha
    exact hAll a ha
  have hnone : Blame._get_commit_info_from_blame_response parseDate
      (some items) = none := by
    simp only [Blame._get_commit_info_from_blame_response, hnil]
    rfl
  have hfb : Blame._fetch_file_blame parseDate
      (Blame.WireResult.seqResponse items rl) = Except.ok (none, rl) := by
    simp only [Blame._fetch_file_blame, hnone]
  refine ⟨hfb, ?_⟩
  intro total rest i acc hg
  rw [Blame.fetchLoop_cons, hfb]
  dsimp only
  rw [if_neg hg]

/-- Witness for claim C5: one hunk without a commit, at loop index 1. -/
theorem C5_invalid_hunks_contribute_nothing_witness :
    (Blame._fetch_file_blame (fun _ => none)
        (Blame.WireResult.seqResponse [⟨none⟩] none) = Except.ok (none, none))
    ∧ ∀ (total : Nat) (rest : List (Blame.SourceLineInfo × Blame.WireResult))
        (i : Nat) (acc : List Blame.FileBlameInfo),
        ¬(i = 0 ∧ 1 < total ∧ Blame.rateLimitLow none total = true) →
        Blame.fetchLoop (fun _ => none) total
            ((Blame.wFile, Blame.WireResult.seqResponse [⟨none⟩] none) :: rest)
            i acc
          = Blame.fetchLoop (fun _ => none) total rest (i + 1) acc :=
  C5_invalid_hunks_contribute_nothing (fun _ => none) [⟨none⟩] (by decide)
    Blame.wFile none

namespace Blame

/-- The fold inside `pythonMaxBy` returns either the start candidate (when
nothing beats it) or the first element strictly beating everything before
it and at least matching everything after. -/
theorem pythonMaxBy_fold_spec {α : Type} (key : α → Int) :
    ∀ (xs : List α) (cur : α),
      (xs.foldl (fun b y => if key b < key y then y else b) cur = cur
          ∧ ∀ y ∈ xs, key y ≤ key cur)
      ∨ ∃ i, ∃ h : i < xs.length,
          xs.foldl (fun b y => if key b < key y then y else b) cur
              = xs.get ⟨i, h⟩
            ∧ key cur < key (xs.get ⟨i, h⟩)
            ∧ (∀ y ∈ xs, key y ≤ key (xs.get ⟨i, h⟩))
            ∧ ∀ j, ∀ hj : j < i,
                key (xs.get ⟨j, Nat.lt_trans hj h⟩) < key (xs.get ⟨i, h⟩) := by
  intro xs
  induction xs with
  | nil =>
    intro cur
    left
    exact ⟨rfl, fun y hy => absurd hy (List.not_mem_nil y)⟩
  | cons x xs ih =>
    intro cur
    by_cases hx : key cur < key x
    · have hstep : (x :: xs).foldl (fun b y => if key b < key y then y else b) cur
          = xs.foldl (fun b y => if key b < key y then y else b) x := by
        simp only [List.foldl_cons, if_pos hx]
      rcases ih x with ⟨heq, hall⟩ | ⟨i, h, heq, hlt, hall, hfirst⟩
      · right
        refine ⟨0, by simp, ?_, hx, ?_, ?_⟩
        · rw [hstep, heq]
          rfl
        · intro y hy
          rcases List.mem_cons.mp hy with rfl | hy2
          · exact le_refl _
          · exact hall y hy2
        · intro j hj
          exact absurd hj (Nat.not_lt_zero j)
      · right
        refine ⟨i + 1, Nat.succ_lt_succ h, ?_, lt_trans hx hlt, ?_, ?_⟩
        · rw [hstep, heq]
          rfl
        · intro y hy
          rcases List.mem_cons.mp hy with rfl | hy2
          · exact le_of_lt hlt
          · exact hall y hy2
        · intro j hj
          cases j with
          | zero => exact hlt
          | succ j2 => exact hfirst j2 (Nat.lt_of_succ_lt_succ hj)
    · have hstep : (x :: xs).foldl (fun b y => if key b < key y then y else b) cur
          = xs.foldl (fun b y => if key b < key y then y else b) cur := by
        simp only [List.foldl_cons, if_neg hx]
      have hxle : key x ≤ key cur := le_of_not_lt hx
      rcases ih cur with ⟨heq, hall⟩ | ⟨i, h, heq, hlt, hall, hfirst⟩
      · left
        constructor
        · rw [hstep, heq]
        · intro y hy
          rcases List.mem_cons.mp hy with rfl | hy2
          · exact hxle
          · exact hall y hy2
      · right
        refine ⟨i + 1, Nat.succ_lt_succ h, ?_, hlt, ?_, ?_⟩
        · rw [hstep, heq]
          rfl
        · intro y hy
          rcases List.mem_cons.mp hy with rfl | hy2
          · exact le_trans hxle (le_of_lt hlt)
          · exact hall y hy2
        · intro j hj
          cases j with
          | zero => exact lt_of_le_of_lt hxle hlt
          | succ j2 => exact hfirst j2 (Nat.lt_of_succ_lt_succ hj)

/-- `pythonMaxBy` on a non-empty list returns the first element attaining
the maximal key: no key exceeds it, and every earlier key is strictly
smaller. -/
theorem pythonMaxBy_spec {α : Type} (key : α → Int) (l : List α)
    (hl : l ≠ []) :
    ∃ i, ∃ h : i < l.length,
      pythonMaxBy key l = some (l.get ⟨i, h⟩)
      ∧ (∀ j, ∀ hj : j < l.length, key (l.get ⟨j, hj⟩) ≤ key (l.get ⟨i, h⟩))
      ∧ ∀ j, ∀ hj : j < i,
          key (l.get ⟨j, Nat.lt_trans hj h⟩) < key (l.get ⟨i, h⟩) := by
  cases l with
  | nil => exact absurd rfl hl
  | cons x xs =>
    rcases pythonMaxBy_fold_spec key xs x
      with ⟨heq, hall⟩ | ⟨i, h, heq, hlt, hall, hfirst⟩
    · refine ⟨0, by simp, ?_, ?_, ?_⟩
      · simp only [pythonMaxBy, heq]
        rfl
      · intro j hj
        cases j with
        | zero => exact le_refl _
        | succ j2 =>
          exact hall _ (List.get_mem xs j2 (Nat.lt_of_succ_lt_succ hj))
      · intro j hj
        exact absurd hj (Nat.not_lt_zero j)
    · refine ⟨i + 1, Nat.succ_lt_succ h, ?_, ?_, ?_⟩
      · simp only [pythonMaxBy, heq]
        rfl
      · intro j hj
        cases j with
        | zero => exact le_of_lt hlt
        | succ j2 =>
          exact hall _ (List.get_mem xs j2 (Nat.lt_of_succ_lt_succ hj))
      · intro j hj
        cases j with
        | zero => exact hlt
        | succ j2 => exact hfirst j2 (Nat.lt_of_succ_lt_succ hj)

end Blame

/-- Claim C3: when a file's response yields at least one valid commit,
`_get_commit_info_from_blame_response` selects a commit of maximal
committed timestamp, and among commits tied at the maximum it selects the
first in response order (every strictly earlier valid commit has a
strictly smaller timestamp). -/
theorem C3_latest_commit_selected (parseDate : String → Option Int)
    (items : List Blame.GitLabFileBlameResponseItem)
    (hne : Blame.commits_with_required_info parseDate items ≠ []) :
    ∃ i, ∃ h : i < (Blame.commits_with_required_info parseDate items).length,
      Blame._get_commit_info_from_blame_response parseDate (some items)
          = some ((Blame.commits_with_required_info parseDate items).get
              ⟨i, h⟩)
        ∧ (∀ j, ∀ hj :
              j < (Blame.commits_with_required_info parseDate items).length,
            ((Blame.commits_with_required_info parseDate items).get
                ⟨j, hj⟩).committedDate
              ≤ ((Blame.commits_with_required_info parseDate items).get
                  ⟨i, h⟩).committedDate)
        ∧ ∀ j, ∀ hj : j < i,
            ((Blame.commits_with_required_info parseDate items).get
                ⟨j, Nat.lt_trans hj h⟩).committedDate
              < ((Blame.commits_with_required_info parseDate items).get
                  ⟨i, h⟩).committedDate := by
  have hrw : Blame._get_commit_info_from_blame_response parseDate (some items)
      = Blame.pythonMaxBy (fun commit => commit.committedDate)
          (Blame.commits_with_required_info parseDate items) := rfl
  rw [hrw]
  exact Blame.pythonMaxBy_spec (fun commit => commit.committedDate)
    (Blame.commits_with_required_info parseDate items) hne

/-- Witness for claim C3: three valid commits with timestamps 1, 3, 3. -/
theorem C3_latest_commit_selected_witness :
    ∃ i, ∃ h : i < (Blame.commits_with_required_info Blame.wParseDate
        [Blame.wItem 'a' 1, Blame.wItem 'b' 3, Blame.wItem 'c' 3]).length,
      Blame._get_commit_info_from_blame_response Blame.wParseDate
          (some [Blame.wItem 'a' 1, Blame.wItem 'b' 3, Blame.wItem 'c' 3])
          = some ((Blame.commits_with_required_info Blame.wParseDate
              [Blame.wItem 'a' 1, Blame.wItem 'b' 3, Blame.wItem 'c' 3]).get
              ⟨i, h⟩)
        ∧ (∀ j, ∀ hj : j < (Blame.commits_with_required_info Blame.wParseDate
              [Blame.wItem 'a' 1, Blame.wItem 'b' 3,
                Blame.wItem 'c' 3]).length,
            ((Blame.commits_with_required_info Blame.wParseDate
                [Blame.wItem 'a' 1, Blame.wItem 'b' 3,
                  Blame.wItem 'c' 3]).get ⟨j, hj⟩).committedDate
              ≤ ((Blame.commits_with_required_info Blame.wParseDate
                  [Blame.wItem 'a' 1, Blame.wItem 'b' 3,
                    Blame.wItem 'c' 3]).get ⟨i, h⟩).committedDate)
        ∧ ∀ j, ∀ hj : j < i,
            ((Blame.commits_with_required_info Blame.wParseDate
                [Blame.wItem 'a' 1, Blame.wItem 'b' 3,
                  Blame.wItem 'c' 3]).get
                ⟨j, Nat.lt_trans hj h⟩).committedDate
              < ((Blame.commits_with_required_info Blame.wParseDate
                  [Blame.wItem 'a' 1, Blame.wItem 'b' 3,
                    Blame.wItem 'c' 3]).get ⟨i, h⟩).committedDate :=
  C3_latest_commit_selected Blame.wParseDate
    [Blame.wItem 'a' 1, Blame.wItem 'b' 3, Blame.wItem 'c' 3] (by decide)

namespace PyOps

theorem strCount_append (sep : Char) (a b : PyStr) :
    strCount sep (a ++ b) = strCount sep a + strCount sep b :=
  List.count_append sep a b

theorem strCount_cons_self (sep : Char) (b : PyStr) :
    strCount sep (sep :: b) = strCount sep b + 1 :=
  List.count_cons_self sep b

end PyOps

namespace LinkSign

open PyOps Radix

/-- Re-association of the signed data built by `process_signature` from a
three-field signature parameter, into MAC-checking shape. -/
theorem signed_data_assoc (u p b t m : PyStr) :
    u ++ '|' :: (p ++ '|' :: (b ++ ':' :: (t ++ ':' :: m)))
      = ((u ++ '|' :: (p ++ '|' :: b)) ++ ':' :: t) ++ ':' :: m := by
  simp [List.append_assoc]

/-- The `_` parameter produced by `generate_signed_link` has exactly two
`:` characters when its three fields have none. -/
theorem sig_count_two (b t m : PyStr) (hb : ':' ∉ b) (ht : ':' ∉ t)
    (hm : ':' ∉ m) :
    strCount ':' (b ++ ':' :: (t ++ ':' :: m)) = 2 := by
  rw [strCount_append, strCount_cons_self, strCount_append,
    strCount_cons_self, strCount_no_sep ':' b hb, strCount_no_sep ':' t ht,
    strCount_no_sep ':' m hm]

/-- A three-field signature parameter passes the initial format check. -/
theorem sig_format_ok (b t m : PyStr) (hb : ':' ∉ b) (ht : ':' ∉ t)
    (hm : ':' ∉ m) :
    signature_format_ok (b ++ ':' :: (t ++ ':' :: m)) = true := by
  have hcount := sig_count_two b t m hb ht hm
  have hne : (b ++ ':' :: (t ++ ':' :: m)).isEmpty = false := by
    cases b <;> simp
  simp [signature_format_ok, hne, hcount]

/-- `djUnsign` on an honestly signed value verifies the MAC, recovers the
timestamp and applies only the age check. -/
theorem djUnsign_honest (mac : PyStr → PyStr) (now maxAge t : Nat)
    (A0 : PyStr) (hm : ':' ∉ mac (A0 ++ ':' :: base62_encode t)) :
    djUnsign mac now maxAge
        ((A0 ++ ':' :: base62_encode t)
          ++ ':' :: mac (A0 ++ ':' :: base62_encode t))
      = if (maxAge : Int) < (now : Int) - (t : Int) then none
        else some A0 := by
  have hts : ':' ∉ base62_encode t :=
    not_mem_of_alnum _ (base62_encode_alnum t) ':' (by decide)
  have hcount : ¬ strCount ':'
      ((A0 ++ ':' :: base62_encode t)
        ++ ':' :: mac (A0 ++ ':' :: base62_encode t)) = 0 := by
    rw [strCount_append, strCount_cons_self]
    omega
  have hcount2 : ¬ strCount ':' (A0 ++ ':' :: base62_encode t) = 0 := by
    rw [strCount_append, strCount_cons_self]
    omega
  unfold djUnsign
  rw [if_neg hcount,
    pyRsplit_one ':' (A0 ++ ':' :: base62_encode t)
      (mac (A0 ++ ':' :: base62_encode t)) hm]
  dsimp only
  rw [if_pos rfl, if_neg hcount2, pyRsplit_one ':' A0 (base62_encode t) hts]
  dsimp only
  rw [base62_decode_encode]

/-- `djUnsign` rejects a value whose final `:`-field is not the MAC of the
rest. -/
theorem djUnsign_bad_mac (mac : PyStr → PyStr) (now maxAge : Nat)
    (A m2 : PyStr) (hm2 : ':' ∉ m2) (hne : m2 ≠ mac A) :
    djUnsign mac now maxAge (A ++ ':' :: m2) = none := by
  have hcount : ¬ strCount ':' (A ++ ':' :: m2) = 0 := by
    rw [strCount_append, strCount_cons_self]
    omega
  unfold djUnsign
  rw [if_neg hcount, pyRsplit_one ':' A m2 hm2]
  dsimp only
  rw [if_neg hne]

end LinkSign

namespace LinkSign

open PyOps Radix

/-- The signature kept by `generate_signed_link` is the timestamp and MAC
fields of the signed value, whatever the payload contains. -/
theorem buildSignedLink_signature (mac : PyStr → PyStr) (now : Nat)
    (item : PyStr) (hm : ':' ∉ mac (item ++ ':' :: base62_encode now)) :
    pyJoin ':' ((pyRsplit ':' 2 (djSign mac now item)).drop 1)
      = base62_encode now ++ ':' :: mac (item ++ ':' :: base62_encode now) := by
  have hts : ':' ∉ base62_encode now :=
    not_mem_of_alnum _ (base62_encode_alnum now) ':' (by decide)
  have hshape : djSign mac now item
      = item ++ ':' :: (base62_encode now
          ++ ':' :: mac (item ++ ':' :: base62_encode now)) := by
    unfold djSign
    simp [List.append_assoc]
  rw [hshape, pyRsplit_two ':' item (base62_encode now)
    (mac (item ++ ':' :: base62_encode now)) hts hm]
  simp [pyJoin]

/-- Modelled framework glue: parsing a URL built from the region base, a
`?`-free path and a query string recovers that path and query. -/
theorem parseUrlRequest_build (base path query : PyStr) (hpath : '?' ∉ path) :
    parseUrlRequest base (base ++ (path ++ '?' :: query))
      = { path := path, GET := parseQuery query } := by
  unfold parseUrlRequest
  dsimp only
  rw [List.drop_left, splitFirst_append '?' path query hpath]
  rfl

/-- Query-string parsing of the single parameter `_={sig}`. -/
theorem parseQuery_single (sig : PyStr) (hamp : '&' ∉ sig) :
    parseQuery ('_' :: '=' :: sig) = [(['_'], sig)] := by
  unfold parseQuery
  have hno : '&' ∉ ('_' :: '=' :: sig) := by
    intro hm
    simp only [List.mem_cons] at hm
    rcases hm with h | h | h
    · exact absurd h (by decide)
    · exact absurd h (by decide)
    · exact hamp h
  rw [pySplit_no_sep '&' _ hno]
  have e1 : splitFirst '=' ('_' :: '=' :: sig) = (['_'], some sig) :=
    splitFirst_append '=' ['_'] sig (by decide)
  rw [List.map_cons, List.map_nil]
  dsimp only
  rw [e1]
  rfl

/-- Query-string parsing of `_={sig}&referrer={enc}`. -/
theorem parseQuery_with_ref (sig enc : PyStr) (hamp : '&' ∉ sig)
    (hence : '&' ∉ enc) :
    parseQuery ('_' :: '=' :: (sig ++ '&' :: (referrerKey.toList ++ enc)))
      = [(['_'], sig),
          (['r', 'e', 'f', 'e', 'r', 'r', 'e', 'r'], enc)] := by
  unfold parseQuery
  have hsplit : pySplit '&'
      ('_' :: '=' :: (sig ++ '&' :: (referrerKey.toList ++ enc)))
      = pySplit '&' ('_' :: '=' :: sig)
        ++ pySplit '&' (referrerKey.toList ++ enc) := by
    have heq : ('_' :: '=' :: (sig ++ '&' :: (referrerKey.toList ++ enc)))
        = ('_' :: '=' :: sig) ++ '&' :: (referrerKey.toList ++ enc) := rfl
    rw [heq, pySplit_append_sep]
  rw [hsplit]
  have hno : '&' ∉ ('_' :: '=' :: sig) := by
    intro hm
    simp only [List.mem_cons] at hm
    rcases hm with h | h | h
    · exact absurd h (by decide)
    · exact absurd h (by decide)
    · exact hamp h
  have hnoref : '&' ∉ (referrerKey.toList ++ enc) := by
    intro hm
    rw [List.mem_append] at hm
    rcases hm with h | h
    · exact absurd h (by decide)
    · exact hence h
  rw [pySplit_no_sep '&' _ hno, pySplit_no_sep '&' _ hnoref]
  have e1 : splitFirst '=' ('_' :: '=' :: sig) = (['_'], some sig) :=
    splitFirst_append '=' ['_'] sig (by decide)
  have e2 : splitFirst '=' (referrerKey.toList ++ enc)
      = (['r', 'e', 'f', 'e', 'r', 'r', 'e', 'r'], some enc) :=
    splitFirst_append '=' ['r', 'e', 'f', 'e', 'r', 'r', 'e', 'r'] enc
      (by decide)
  rw [List.cons_append, List.nil_append, List.map_cons, List.map_cons,
    List.map_nil]
  dsimp only
  rw [e1, e2]
  rfl

/-- Hexadecimal digit characters are alphanumeric. -/
theorem hexChar_alnum : ∀ d, d < 16 → (hexChar d).isAlphanum = true := by
  decide

/-- UTF-8 byte values are below 256. -/
theorem utf8Bytes_lt_256 (c : Char) : ∀ b ∈ utf8Bytes c, b < 256 := by
  have hv : Nat.isValidChar c.toNat := c.valid
  have hc : c.toNat < 1114112 := by
    rcases hv with h | ⟨_, h2⟩
    · omega
    · exact h2
  intro b hb
  unfold utf8Bytes at hb
  by_cases h1 : c.toNat < 128
  · rw [if_pos h1] at hb
    simp only [List.mem_singleton] at hb
    omega
  · rw [if_neg h1] at hb
    by_cases h2 : c.toNat < 2048
    · rw [if_pos h2] at hb
      simp only [List.mem_cons, List.not_mem_nil, or_false] at hb
      rcases hb with h | h <;> omega
    · rw [if_neg h2] at hb
      by_cases h3 : c.toNat < 65536
      · rw [if_pos h3] at hb
        simp only [List.mem_cons, List.not_mem_nil, or_false] at hb
        rcases hb with h | h | h <;> omega
      · rw [if_neg h3] at hb
        simp only [List.mem_cons, List.not_mem_nil, or_false] at hb
        rcases hb with h | h | h | h <;> omega

/-- Every character produced by `quote_plus` is alphanumeric or one of
`_.-~+%`; in particular the encoded referrer contains no `&`, `=` or
`?`. -/
theorem quote_plus_chars (r : PyStr) :
    ∀ c ∈ quote_plus r, c.isAlphanum = true
      ∨ c ∈ ['_', '.', '-', '~', '+', '%'] := by
  intro c hc
  unfold quote_plus at hc
  rw [List.mem_flatMap] at hc
  obtain ⟨a, _, hmem⟩ := hc
  by_cases h1 : (a.isAlphanum || a == '_' || a == '.' || a == '-'
      || a == '~') = true
  · rw [if_pos h1] at hmem
    simp only [List.mem_singleton] at hmem
    subst hmem
    simp only [Bool.or_eq_true, beq_iff_eq] at h1
    rcases h1 with ⟨⟨⟨h | h⟩ | h⟩ | h⟩ | h
    · exact Or.inl h
    all_goals subst h
    all_goals simp
  · rw [if_neg h1] at hmem
    by_cases h2 : (a == ' ') = true
    · rw [if_pos h2] at hmem
      simp only [List.mem_singleton] at hmem
      subst hmem
      simp
    · rw [if_neg h2] at hmem
      rw [List.mem_flatMap] at hmem
      obtain ⟨b, hbmem, hb⟩ := hmem
      have hblt : b < 256 := utf8Bytes_lt_256 a b hbmem
      unfold pctByte at hb
      simp only [List.mem_cons, List.not_mem_nil, or_false] at hb
      rcases hb with h | h | h
      · subst h
        simp
      · subst h
        exact Or.inl (hexChar_alnum _ (by omega))
      · subst h
        exact Or.inl (hexChar_alnum _ (Nat.mod_lt _ (by omega)))

end LinkSign

namespace LinkSign

open PyOps Radix

/-- `process_signature` on a request carrying the honest `_` parameter for
its own path — base36 user id, base62 signing timestamp, and the MAC of
the reconstructed payload — resolves the original user id, provided the
MAC output is alphanumeric, the path is `|`-free, and the signature is
within `max_age`. -/
theorem process_signature_honest (cfg : LinkConfig) (mac : PyStr → PyStr)
    (tSign tVerify maxAge uid : Nat) (req : HttpRequest)
    (hmac : ∀ c ∈ mac ((cfg.urlRoot
        ++ '|' :: (req.path ++ '|' :: base36_encode uid))
        ++ ':' :: base62_encode tSign), c.isAlphanum = true)
    (hpipe : '|' ∉ req.path)
    (hage : (tVerify : Int) - (tSign : Int) ≤ (maxAge : Int))
    (hfind : find_signature req = some (base36_encode uid
      ++ ':' :: (base62_encode tSign
        ++ ':' :: mac ((cfg.urlRoot
          ++ '|' :: (req.path ++ '|' :: base36_encode uid))
          ++ ':' :: base62_encode tSign)))) :
    process_signature cfg mac tVerify maxAge req = some uid := by
  have hb36 := base36_encode_alnum uid
  have hb62 := base62_encode_alnum tSign
  have hbc : ':' ∉ base36_encode uid :=
    not_mem_of_alnum _ hb36 ':' (by decide)
  have htc : ':' ∉ base62_encode tSign :=
    not_mem_of_alnum _ hb62 ':' (by decide)
  have hmc : ':' ∉ mac ((cfg.urlRoot
      ++ '|' :: (req.path ++ '|' :: base36_encode uid))
      ++ ':' :: base62_encode tSign) :=
    not_mem_of_alnum _ hmac ':' (by decide)
  have hb36p : '|' ∉ base36_encode uid :=
    not_mem_of_alnum _ hb36 '|' (by decide)
  have hfmt := sig_format_ok (base36_encode uid) (base62_encode tSign)
    (mac ((cfg.urlRoot ++ '|' :: (req.path ++ '|' :: base36_encode uid))
      ++ ':' :: base62_encode tSign)) hbc htc hmc
  unfold process_signature
  rw [hfind]
  dsimp only
  rw [if_pos hfmt, signed_data_assoc,
    djUnsign_honest mac tVerify maxAge tSign
      (cfg.urlRoot ++ '|' :: (req.path ++ '|' :: base36_encode uid)) hmc,
    if_neg (by omega : ¬ (maxAge : Int) < (tVerify : Int) - (tSign : Int))]
  dsimp only
  rw [pyRsplit_two '|' cfg.urlRoot req.path (base36_encode uid) hpipe hb36p]
  dsimp only
  rw [if_neg (by simp : ¬ req.path ≠ req.path)]
  exact base36_decode_encode uid

end LinkSign

/-- Claim C1: for every authenticated user (a user object with the flag
set, or a raw id) and every sane route path (no `|` or `?`), applying
`process_signature` to a request for the exact URL returned by
`generate_signed_link` — same url-prefix configuration, within `max_age`
of signing, with or without a referrer — resolves the original user id.
The abstract MAC is assumed alphanumeric on the signed payload, as
django's URL-safe base64 HMAC digest is up to `-` and `_`. -/
theorem C1_signed_link_roundtrip (cfg : LinkSign.LinkConfig)
    (mac : PyStr → PyStr) (tSign tVerify maxAge uid : Nat) (path : PyStr)
    (referrer : Option PyStr)
    (hmac : ∀ c ∈ mac ((cfg.urlRoot
        ++ '|' :: (path ++ '|' :: Radix.base36_encode uid))
        ++ ':' :: Radix.base62_encode tSign), c.isAlphanum = true)
    (hpipe : '|' ∉ path) (hq : '?' ∉ path)
    (hage : (tVerify : Int) - (tSign : Int) ≤ (maxAge : Int))
    (user : LinkSign.SignUser)
    (huser : user = LinkSign.SignUser.authObj uid true
      ∨ user = LinkSign.SignUser.rawId uid)
    (url : PyStr)
    (hurl : LinkSign.generate_signed_link cfg mac tSign user path referrer
      = Except.ok url) :
    LinkSign.process_signature cfg mac tVerify maxAge
        (LinkSign.parseUrlRequest cfg.regionBase url) = some uid := by
  have hb36 := Radix.base36_encode_alnum uid
  have hb62 := Radix.base62_encode_alnum tSign
  have hbuild : url = LinkSign.buildSignedLink cfg mac tSign uid path referrer := by
    rcases huser with rfl | rfl
    · simpa [LinkSign.generate_signed_link] using hurl.symm
    · simpa [LinkSign.generate_signed_link] using hurl.symm
  subst hbuild
  have hmc : ':' ∉ mac ((cfg.urlRoot
      ++ '|' :: (path ++ '|' :: Radix.base36_encode uid))
      ++ ':' :: Radix.base62_encode tSign) :=
    Radix.not_mem_of_alnum _ hmac ':' (by decide)
  have hsig := LinkSign.buildSignedLink_signature mac tSign
    (cfg.urlRoot ++ '|' :: (path ++ '|' :: Radix.base36_encode uid)) hmc
  have hampsig : '&' ∉ (Radix.base36_encode uid
      ++ ':' :: (Radix.base62_encode tSign
        ++ ':' :: mac ((cfg.urlRoot
          ++ '|' :: (path ++ '|' :: Radix.base36_encode uid))
          ++ ':' :: Radix.base62_encode tSign))) := by
    intro hm
    simp only [List.mem_append, List.mem_cons] at hm
    rcases hm with h | h | h | h | h
    · exact absurd (hb36 _ h) (by decide)
    · exact absurd h (by decide)
    · exact absurd (hb62 _ h) (by decide)
    · exact absurd h (by decide)
    · exact absurd (hmac _ h) (by decide)
  cases referrer with
  | none =>
    have hlink : LinkSign.buildSignedLink cfg mac tSign uid path none
        = cfg.regionBase ++ (path ++ '?' :: ('_' :: '='
          :: (Radix.base36_encode uid
            ++ ':' :: (Radix.base62_encode tSign
              ++ ':' :: mac ((cfg.urlRoot
                ++ '|' :: (path ++ '|' :: Radix.base36_encode uid))
                ++ ':' :: Radix.base62_encode tSign))))) := by
      unfold LinkSign.buildSignedLink
      dsimp only
      rw [hsig]
      simp [List.append_assoc]
    rw [hlink, LinkSign.parseUrlRequest_build cfg.regionBase path _ hq,
      LinkSign.parseQuery_single _ hampsig]
    exact LinkSign.process_signature_honest cfg mac tSign tVerify maxAge uid
      _ hmac hpipe hage rfl
  | some r =>
    have hence : '&' ∉ LinkSign.quote_plus r := by
      intro hm
      rcases LinkSign.quote_plus_chars r '&' hm with h | h
      · exact absurd h (by decide)
      · exact absurd h (by decide)
    have hlink : LinkSign.buildSignedLink cfg mac tSign uid path (some r)
        = cfg.regionBase ++ (path ++ '?' :: ('_' :: '='
          :: ((Radix.base36_encode uid
            ++ ':' :: (Radix.base62_encode tSign
              ++ ':' :: mac ((cfg.urlRoot
                ++ '|' :: (path ++ '|' :: Radix.base36_encode uid))
                ++ ':' :: Radix.base62_encode tSign)))
            ++ '&' :: (LinkSign.referrerKey.toList
              ++ LinkSign.quote_plus r)))) := by
      unfold LinkSign.buildSignedLink
      dsimp only
      rw [hsig]
      simp [List.append_assoc]
    rw [hlink, LinkSign.parseUrlRequest_build cfg.regionBase path _ hq,
      LinkSign.parseQuery_with_ref _ _ hampsig hence]
    exact LinkSign.process_signature_honest cfg mac tSign tVerify maxAge uid
      _ hmac hpipe hage rfl

/-- Witness for claim C1: user 37, path `/p`, signed at time 5, verified at
time 7 with `max_age` 10. -/
theorem C1_signed_link_roundtrip_witness :
    LinkSign.process_signature LinkSign.wCfg LinkSign.wMac 7 10
        (LinkSign.parseUrlRequest LinkSign.wCfg.regionBase
          (LinkSign.buildSignedLink LinkSign.wCfg LinkSign.wMac 5 37
            LinkSign.wPath none)) = some 37 :=
  C1_signed_link_roundtrip LinkSign.wCfg LinkSign.wMac 5 7 10 37
    LinkSign.wPath none (by decide) (by decide) (by decide) (by decide)
    (LinkSign.SignUser.authObj 37 true) (Or.inl rfl)
    (LinkSign.buildSignedLink LinkSign.wCfg LinkSign.wMac 5 37
      LinkSign.wPath none) rfl

/-- Claim C8: `process_signature` resolves no user — and, in this
embedding, raises nothing — for a request whose signature field was
tampered with, for an expired signature, and for an honest signature
presented on a request whose path differs from the signed path (stated via
the MAC separating the two payloads, which any collision-free MAC does). -/
theorem C8_validation_failures_return_none (cfg : LinkSign.LinkConfig)
    (mac : PyStr → PyStr) (tSign tVerify maxAge uid : Nat) (path : PyStr)
    (hmac : ∀ c ∈ mac ((cfg.urlRoot
        ++ '|' :: (path ++ '|' :: Radix.base36_encode uid))
        ++ ':' :: Radix.base62_encode tSign), c.isAlphanum = true) :
    (∀ m2 : PyStr, (∀ c ∈ m2, c.isAlphanum = true) →
      m2 ≠ mac ((cfg.urlRoot
          ++ '|' :: (path ++ '|' :: Radix.base36_encode uid))
          ++ ':' :: Radix.base62_encode tSign) →
      LinkSign.process_signature cfg mac tVerify maxAge
        ⟨path, [(['_'], Radix.base36_encode uid
          ++ ':' :: (Radix.base62_encode tSign ++ ':' :: m2))]⟩ = none)
    ∧ ((maxAge : Int) < (tVerify : Int) - (tSign : Int) →
      LinkSign.process_signature cfg mac tVerify maxAge
        ⟨path, [(['_'], Radix.base36_encode uid
          ++ ':' :: (Radix.base62_encode tSign
            ++ ':' :: mac ((cfg.urlRoot
              ++ '|' :: (path ++ '|' :: Radix.base36_encode uid))
              ++ ':' :: Radix.base62_encode tSign)))]⟩ = none)
    ∧ (∀ p2 : PyStr,
      mac ((cfg.urlRoot ++ '|' :: (p2 ++ '|' :: Radix.base36_encode uid))
          ++ ':' :: Radix.base62_encode tSign)
        ≠ mac ((cfg.urlRoot
          ++ '|' :: (path ++ '|' :: Radix.base36_encode uid))
          ++ ':' :: Radix.base62_encode tSign) →
      LinkSign.process_signature cfg mac tVerify maxAge
        ⟨p2, [(['_'], Radix.base36_encode uid
          ++ ':' :: (Radix.base62_encode tSign
            ++ ':' :: mac ((cfg.urlRoot
              ++ '|' :: (path ++ '|' :: Radix.base36_encode uid))
              ++ ':' :: Radix.base62_encode tSign)))]⟩ = none) := by
  have hb36 := Radix.base36_encode_alnum uid
  have hb62 := Radix.base62_encode_alnum tSign
  have hbc : ':' ∉ Radix.base36_encode uid :=
    Radix.not_mem_of_alnum _ hb36 ':' (by decide)
  have htc : ':' ∉ Radix.base62_encode tSign :=
    Radix.not_mem_of_alnum _ hb62 ':' (by decide)
  have hmc : ':' ∉ mac ((cfg.urlRoot
      ++ '|' :: (path ++ '|' :: Radix.base36_encode uid))
      ++ ':' :: Radix.base62_encode tSign) :=
    Radix.not_mem_of_alnum _ hmac ':' (by decide)
  refine ⟨?_, ?_, ?_⟩
  · intro m2 hm2a hne
    have hm2c : ':' ∉ m2 := Radix.not_mem_of_alnum _ hm2a ':' (by decide)
    have hfmt := LinkSign.sig_format_ok (Radix.base36_encode uid)
      (Radix.base62_encode tSign) m2 hbc htc hm2c
    unfold LinkSign.process_signature
    rw [show LinkSign.find_signature ⟨path, [(['_'], Radix.base36_encode uid
        ++ ':' :: (Radix.base62_encode tSign ++ ':' :: m2))]⟩
      = some (Radix.base36_encode uid
        ++ ':' :: (Radix.base62_encode tSign ++ ':' :: m2)) from rfl]
    dsimp only
    rw [if_pos hfmt, LinkSign.signed_data_assoc,
      LinkSign.djUnsign_bad_mac mac tVerify maxAge _ m2 hm2c hne]
  · intro hexp
    have hfmt := LinkSign.sig_format_ok (Radix.base36_encode uid)
      (Radix.base62_encode tSign)
      (mac ((cfg.urlRoot ++ '|' :: (path ++ '|' :: Radix.base36_encode uid))
        ++ ':' :: Radix.base62_encode tSign)) hbc htc hmc
    unfold LinkSign.process_signature
    rw [show LinkSign.find_signature ⟨path, [(['_'], Radix.base36_encode uid
        ++ ':' :: (Radix.base62_encode tSign
          ++ ':' :: mac ((cfg.urlRoot
            ++ '|' :: (path ++ '|' :: Radix.base36_encode uid))
            ++ ':' :: Radix.base62_encode tSign)))]⟩
      = some (Radix.base36_encode uid
        ++ ':' :: (Radix.base62_encode tSign
          ++ ':' :: mac ((cfg.urlRoot
            ++ '|' :: (path ++ '|' :: Radix.base36_encode uid))
            ++ ':' :: Radix.base62_encode tSign))) from rfl]
    dsimp only
    rw [if_pos hfmt, LinkSign.signed_data_assoc,
      LinkSign.djUnsign_honest mac tVerify maxAge tSign
        (cfg.urlRoot ++ '|' :: (path ++ '|' :: Radix.base36_encode uid)) hmc,
      if_pos hexp]
  · intro p2 hneq
    have hfmt := LinkSign.sig_format_ok (Radix.base36_encode uid)
      (Radix.base62_encode tSign)
      (mac ((cfg.urlRoot ++ '|' :: (path ++ '|' :: Radix.base36_encode uid))
        ++ ':' :: Radix.base62_encode tSign)) hbc htc hmc
    unfold LinkSign.process_signature
    rw [show LinkSign.find_signature ⟨p2, [(['_'], Radix.base36_encode uid
        ++ ':' :: (Radix.base62_encode tSign
          ++ ':' :: mac ((cfg.urlRoot
            ++ '|' :: (path ++ '|' :: Radix.base36_encode uid))
            ++ ':' :: Radix.base62_encode tSign)))]⟩
      = some (Radix.base36_encode uid
        ++ ':' :: (Radix.base62_encode tSign
          ++ ':' :: mac ((cfg.urlRoot
            ++ '|' :: (path ++ '|' :: Radix.base36_encode uid))
            ++ ':' :: Radix.base62_encode tSign))) from rfl]
    dsimp only
    rw [if_pos hfmt, LinkSign.signed_data_assoc,
      LinkSign.djUnsign_bad_mac mac tVerify maxAge
        ((cfg.urlRoot ++ '|' :: (p2 ++ '|' :: Radix.base36_encode uid))
          ++ ':' :: Radix.base62_encode tSign) _ hmc hneq.symm]

/-- Witness for claim C8: user 37, signed at time 5 for path `/p`, checked
at time 7 with `max_age` 1 — a tampered MAC field `z`, the expired honest
signature, and the honest signature on path `/q`. -/
theorem C8_validation_failures_return_none_witness :
    (LinkSign.process_signature LinkSign.wCfg LinkSign.wMac 7 1
      ⟨LinkSign.wPath, [(['_'], Radix.base36_encode 37
        ++ ':' :: (Radix.base62_encode 5 ++ ':' :: ['z']))]⟩ = none)
    ∧ (LinkSign.process_signature LinkSign.wCfg LinkSign.wMac 7 1
      ⟨LinkSign.wPath, [(['_'], Radix.base36_encode 37
        ++ ':' :: (Radix.base62_encode 5 ++ ':' :: ['m']))]⟩ = none)
    ∧ (LinkSign.process_signature LinkSign.wCfg LinkSign.wMac 7 1
      ⟨['/', 'q'], [(['_'], Radix.base36_encode 37
        ++ ':' :: (Radix.base62_encode 5 ++ ':' :: ['m']))]⟩ = none) := by
  have h := C8_validation_failures_return_none LinkSign.wCfg LinkSign.wMac
    5 7 1 37 LinkSign.wPath (by decide)
  exact ⟨h.1 ['z'] (by decide) (by decide), h.2.1 (by decide),
    h.2.2 ['/', 'q'] (by decide)⟩
